import Mathlib

/-!
Verification of the unit-conversion, address/CID validation and RPC-client
layers of the n8n Filecoin node package.

The TypeScript sources are shallowly embedded:
strings are `String`/`List Char`, JavaScript `BigNumber` values (exact decimal
arithmetic, 36 decimal places, `ROUND_DOWN`) are rationals with explicit
truncating rounding, `bigint` is `Nat`/`Int`, and fallible operations return
`Option`/`Except`.  Regex patterns from the source are embedded as executable
boolean predicates over character lists.
-/

set_option maxRecDepth 4000

namespace FilecoinSpec

/-! ### Character classes used by the source regex patterns -/

/-- The decimal-digit character class `[0-9]`. -/
def isDigitChar (c : Char) : Bool := decide (48 ≤ c.toNat) && decide (c.toNat ≤ 57)

/-- Numeric value of a digit character. -/
def digitVal (c : Char) : Nat := c.toNat - 48

/-- Digit character of a value below 10. -/
def digitChar (d : Nat) : Char := Char.ofNat (48 + d)

/-- The base32 character class `[a-z2-7]` used by Filecoin address payloads. -/
def isBase32Char (c : Char) : Bool :=
  (decide (97 ≤ c.toNat) && decide (c.toNat ≤ 122)) ||
  (decide (50 ≤ c.toNat) && decide (c.toNat ≤ 55))

/-- The base58btc character class `[1-9A-HJ-NP-Za-km-z]` of CIDv0 bodies. -/
def isBase58Char (c : Char) : Bool :=
  (decide (49 ≤ c.toNat) && decide (c.toNat ≤ 57)) ||
  (decide (65 ≤ c.toNat) && decide (c.toNat ≤ 72)) ||
  (decide (74 ≤ c.toNat) && decide (c.toNat ≤ 78)) ||
  (decide (80 ≤ c.toNat) && decide (c.toNat ≤ 90)) ||
  (decide (97 ≤ c.toNat) && decide (c.toNat ≤ 107)) ||
  (decide (109 ≤ c.toNat) && decide (c.toNat ≤ 122))

/-- The hex character class `[a-fA-F0-9]`. -/
def isHexChar (c : Char) : Bool :=
  isDigitChar c ||
  (decide (97 ≤ c.toNat) && decide (c.toNat ≤ 102)) ||
  (decide (65 ≤ c.toNat) && decide (c.toNat ≤ 70))

/-- The lowercase-letter class `[a-z]`. -/
def isLowerAlpha (c : Char) : Bool := decide (97 ≤ c.toNat) && decide (c.toNat ≤ 122)

/-- ASCII whitespace, as consumed by JavaScript `trim` / `\s` on the inputs
modelled here. -/
def isSpaceChar (c : Char) : Bool := c == ' ' || c == '\t' || c == '\n' || c == '\r'

/-- ASCII lower-casing, the effect of JavaScript `toLowerCase` on the ASCII
strings this package manipulates. -/
def toLowerAscii (c : Char) : Char :=
  if 65 ≤ c.toNat ∧ c.toNat ≤ 90 then Char.ofNat (c.toNat + 32) else c

/-- JavaScript `String.prototype.trim` on ASCII input. -/
def trimL (cs : List Char) : List Char :=
  ((cs.dropWhile isSpaceChar).reverse.dropWhile isSpaceChar).reverse

/-! ### Decimal digit lists (little-endian) and decimal rendering/parsing -/

/-- Little-endian decimal digits, with explicit fuel for structural recursion. -/
def natDigitsAux : Nat → Nat → List Nat
  | 0, _ => []
  | fuel+1, n => if n = 0 then [] else n % 10 :: natDigitsAux fuel (n / 10)

/-- Little-endian decimal digits of a natural number (empty for 0). -/
def natDigits (n : Nat) : List Nat := natDigitsAux n n

/-- Value of a little-endian digit list. -/
def ofDigitsLE (ds : List Nat) : Nat := ds.foldr (fun d acc => d + 10 * acc) 0

/-- Decimal rendering of a natural number, as JavaScript renders integers. -/
def renderNat (n : Nat) : List Char :=
  if n = 0 then ['0'] else (natDigits n).reverse.map digitChar

/-- Decimal rendering of an integer. -/
def renderInt (i : Int) : List Char :=
  if i < 0 then '-' :: renderNat i.natAbs else renderNat i.natAbs

/-- Value of a big-endian digit-character list (the accumulator loop of a
decimal parser). -/
def parseNatL (cs : List Char) : Nat := cs.foldl (fun a c => 10 * a + digitVal c) 0

/-! ### Exact decimal values: the BigNumber model

The package configures `BigNumber` with `DECIMAL_PLACES: 36` and
`ROUNDING_MODE: ROUND_DOWN` (truncation toward zero).  BigNumber stores exact
decimal values; addition and multiplication are exact, division is rounded to
36 decimal places with the configured mode.  We model values as rationals. -/

/-- Truncation of a rational toward zero (BigNumber `ROUND_DOWN`). -/
def truncQ (q : ℚ) : Int := q.num.tdiv q.den

/-- Rounding to 36 decimal places with `ROUND_DOWN`, the configured precision
of every BigNumber division in the package. -/
def bnRound36 (q : ℚ) : ℚ := (truncQ (q * 10 ^ 36) : ℚ) / 10 ^ 36

/-- BigNumber `dividedBy` under the package configuration. -/
def bnDiv (x y : ℚ) : ℚ := bnRound36 (x / y)

/-- Minimal fixed-point rendering of `n / 10 ^ e`: integer part, and the
fractional digits padded to `e` places with trailing zeros stripped.  This is
how `BigNumber.toFixed()` (no argument) prints a stored value. -/
def renderScaled (n : Nat) (e : Nat) : List Char :=
  let i := n / 10 ^ e
  let f := n % 10 ^ e
  if f = 0 then renderNat i
  else
    renderNat i ++ '.' ::
      ((List.replicate (e - (natDigits f).length) 0 ++
        ((natDigits f).dropWhile (· = 0)).reverse).map digitChar)

/-- BigNumber `toFixed(0)` with `ROUND_DOWN`: truncate toward zero and render
the integer. -/
def bnToFixed0 (q : ℚ) : List Char := renderInt (truncQ q)

/-- BigNumber `toFixed()` (no argument): exact minimal rendering of a stored
value whose denominator divides `10 ^ 36`. -/
def bnToFixed (q : ℚ) : List Char :=
  if q < 0 then '-' :: renderScaled (-q * 10 ^ 36).num.toNat 36
  else renderScaled (q * 10 ^ 36).num.toNat 36

/-- Unsigned decimal-string parsing: digits, optionally followed by a point
and fractional digits.  Models the `BigNumber(string)` constructor on the
plain decimal strings this package feeds it (no exponent notation). -/
def parseUnsigned (cs : List Char) : Option ℚ :=
  let ip := cs.takeWhile isDigitChar
  let rest := cs.dropWhile isDigitChar
  if rest.isEmpty then
    if ip.isEmpty then none else some ((parseNatL ip : ℚ))
  else if rest.head? == some '.' && rest.tail.all isDigitChar &&
      !(ip.isEmpty && rest.tail.isEmpty) then
    some ((parseNatL ip : ℚ) + (parseNatL rest.tail : ℚ) / 10 ^ rest.tail.length)
  else none

/-- Signed decimal-string parsing (the `BigNumber(string)` constructor);
`none` models a `NaN` result. -/
def parseDecimal (cs : List Char) : Option ℚ :=
  match cs with
  | [] => none
  | c :: rest =>
    if c = '-' then (parseUnsigned rest).map Neg.neg
    else if c = '+' then parseUnsigned rest
    else parseUnsigned cs

/-- Unsigned fragment of JavaScript `parseFloat`: longest prefix of digits,
optionally a point and more digits; `none` for `NaN`. -/
def jsParseFloatUnsigned (cs : List Char) : Option ℚ :=
  let ip := cs.takeWhile isDigitChar
  let rest := cs.dropWhile isDigitChar
  let fr := if rest.head? == some '.' then rest.tail.takeWhile isDigitChar else []
  if ip.isEmpty && fr.isEmpty then none
  else some ((parseNatL ip : ℚ) + (parseNatL fr : ℚ) / 10 ^ fr.length)

/-- JavaScript `parseFloat` restricted to plain decimal notation (sign,
digits, optional point and digits): longest valid prefix, `none` for `NaN`.
The inputs this package passes are covered by this fragment. -/
def jsParseFloat (cs : List Char) : Option ℚ :=
  match cs with
  | [] => none
  | c :: rest =>
    if c = '-' then (jsParseFloatUnsigned rest).map Neg.neg
    else if c = '+' then jsParseFloatUnsigned rest
    else jsParseFloatUnsigned cs

/-! ### `utils/unitConverter.ts` -/

/-- `FIL_DENOMINATIONS`, lower-cased as `parseFilInput` compares them, with
their attoFIL multipliers, in source (insertion) order. -/
def FIL_DENOMINATIONS : List (List Char × ℚ) :=
  [(('a' :: 't' :: 't' :: 'o' :: 'f' :: 'i' :: 'l' :: []), 1),
   (('f' :: 'e' :: 'm' :: 't' :: 'o' :: 'f' :: 'i' :: 'l' :: []), 10 ^ 3),
   (('p' :: 'i' :: 'c' :: 'o' :: 'f' :: 'i' :: 'l' :: []), 10 ^ 6),
   (('n' :: 'a' :: 'n' :: 'o' :: 'f' :: 'i' :: 'l' :: []), 10 ^ 9),
   (('m' :: 'i' :: 'c' :: 'r' :: 'o' :: 'f' :: 'i' :: 'l' :: []), 10 ^ 12),
   (('m' :: 'i' :: 'l' :: 'l' :: 'i' :: 'f' :: 'i' :: 'l' :: []), 10 ^ 15),
   (('f' :: 'i' :: 'l' :: []), 10 ^ 18)]

/-- `filToAttoFil`: `new BigNumber(fil).multipliedBy(10^18).toFixed(0)`.
Multiplication by an integer is exact; `toFixed(0)` truncates toward zero. -/
def filToAttoFil (s : String) : Option String :=
  (parseDecimal s.data).map (fun q => String.mk (bnToFixed0 (q * 10 ^ 18)))

/-- `attoFilToFil`: `new BigNumber(attoFil).dividedBy(10^18).toFixed()`.
The division is rounded to 36 decimal places with `ROUND_DOWN`. -/
def attoFilToFil (s : String) : Option String :=
  (parseDecimal s.data).map (fun q => String.mk (bnToFixed (bnDiv q (10 ^ 18))))

/-- `convertFilUnits`: multiply by the source multiplier (exact), divide by
the target multiplier (rounded to 36 places), and print with `toFixed()`. -/
def convertFilUnits (amount : List Char) (fromMult toMult : ℚ) : Option (List Char) :=
  (parseDecimal amount).map (fun q => bnToFixed (bnDiv (q * fromMult) toMult))

/-- `isValidFilAmount`: the BigNumber parses (not NaN, finite) and is `≥ 0`. -/
def isValidFilAmount (s : String) : Bool :=
  match parseDecimal s.data with
  | some q => decide (0 ≤ q)
  | none => false

/-- First denomination (in source order) whose lower-cased name is a suffix
of the input, with its multiplier: the suffix scan of `parseFilInput`. -/
def findDenomSuffix (t : List Char) : Option (List Char × ℚ) :=
  FIL_DENOMINATIONS.find? (fun p => p.1.isSuffixOf t)

/-- JavaScript `String.prototype.replace` with a string pattern and empty
replacement: remove the first occurrence of `pat`. -/
def replaceFirst (pat : List Char) : List Char → List Char
  | [] => []
  | c :: rest =>
    if pat.isPrefixOf (c :: rest) then (c :: rest).drop pat.length
    else c :: replaceFirst pat rest

/-- `parseFilInput`: strip a denomination suffix and convert, else treat
inputs with a decimal point or parsed magnitude below `10^6` as FIL, and
large plain numbers as already being attoFIL. -/
def parseFilInput (s : String) : Option String :=
  let trimmed := (trimL s.data).map toLowerAscii
  match findDenomSuffix trimmed with
  | some (dn, mult) =>
    (convertFilUnits (trimL (replaceFirst dn trimmed)) mult 1).map String.mk
  | none =>
    if trimmed.contains '.' ||
        (match jsParseFloat trimmed with
         | some v => decide (v < 1000000)
         | none => false) then
      (parseDecimal trimmed).map (fun q => String.mk (bnToFixed0 (q * 10 ^ 18)))
    else some (String.mk trimmed)

/-- The unit ladder of `formatBytes`. -/
def fbUnits : List (List Char) :=
  [('B' :: []),
   ('K' :: 'i' :: 'B' :: []),
   ('M' :: 'i' :: 'B' :: []),
   ('G' :: 'i' :: 'B' :: []),
   ('T' :: 'i' :: 'B' :: []),
   ('P' :: 'i' :: 'B' :: []),
   ('E' :: 'i' :: 'B' :: [])]

/-- The `while (value >= 1024 && unitIndex < units.length - 1)` loop of
`formatBytes`.  Each division by 1024 is exact in IEEE doubles, so the value
is tracked as an exact rational; the fuel bounds the at most 6 iterations. -/
def fbLoop : Nat → ℚ → Nat → ℚ × Nat
  | 0, v, i => (v, i)
  | fuel+1, v, i =>
    if 1024 ≤ v ∧ i < 6 then fbLoop fuel (v / 1024) (i + 1) else (v, i)

/-- JavaScript `Number.prototype.toFixed(2)` for a nonnegative value: round
`v * 100` to the nearest integer, ties toward the larger, and print with
exactly two decimals. -/
def toFixed2 (v : ℚ) : List Char :=
  let n := (Rat.floor (v * 100 + 1 / 2)).toNat
  renderNat (n / 100) ++ '.' :: digitChar (n / 10 % 10) :: digitChar (n % 10) :: []

/-- `formatBytes`: repeated exact division by 1024, then `toFixed(2)` plus the
unit name.  `Number(bytes)` is exact for counts below `2^53`, the domain on
which the theorems below are stated. -/
def formatBytes (bytes : Nat) : String :=
  let p := fbLoop 6 (bytes : ℚ) 0
  String.mk (toFixed2 p.1 ++ ' ' :: (fbUnits.getD p.2 []))

/-- The unit table of `parseBytes` (1024-based and 1000-based suffixes). -/
def byteUnits : List (List Char × Nat) :=
  [(('b' :: []), 1),
   (('k' :: 'i' :: 'b' :: []), 1024),
   (('m' :: 'i' :: 'b' :: []), 1024 ^ 2),
   (('g' :: 'i' :: 'b' :: []), 1024 ^ 3),
   (('t' :: 'i' :: 'b' :: []), 1024 ^ 4),
   (('p' :: 'i' :: 'b' :: []), 1024 ^ 5),
   (('e' :: 'i' :: 'b' :: []), 1024 ^ 6),
   (('k' :: 'b' :: []), 1000),
   (('m' :: 'b' :: []), 1000 ^ 2),
   (('g' :: 'b' :: []), 1000 ^ 3),
   (('t' :: 'b' :: []), 1000 ^ 4),
   (('p' :: 'b' :: []), 1000 ^ 5)]

/-- `parseBytes`: match `^([\d.]+)\s*([a-z]+)$` against the lower-cased
input (the character classes are disjoint, so greedy scanning is exact);
on a match, `BigInt(Math.floor(parseFloat(num))) * multiplier` with an
unknown unit falling back to multiplier 1; otherwise `BigInt(size)`, which
accepts only a plain integer string (`none` models a throw). -/
def parseBytes (s : String) : Option Int :=
  let t := s.data.map toLowerAscii
  let num := t.takeWhile (fun c => isDigitChar c || c == '.')
  let rest := t.dropWhile (fun c => isDigitChar c || c == '.')
  let unitCs := rest.dropWhile isSpaceChar
  if !num.isEmpty && !unitCs.isEmpty && unitCs.all isLowerAlpha then
    let mult := (((byteUnits.find? (fun p => p.1 == unitCs)).map Prod.snd).getD 1 : Int)
    (jsParseFloat num).map (fun v => Rat.floor v * mult)
  else
    if !s.data.isEmpty && s.data.all isDigitChar then
      some ((parseNatL s.data : Int))
    else none

/-! ### `utils/cidUtils.ts` -/

/-- `CID_V0_PATTERN = /^Qm[1-9A-HJ-NP-Za-km-z]{44}$/`. -/
def cidV0Pattern (cs : List Char) : Bool :=
  match cs with
  | c1 :: c2 :: rest =>
    c1 == 'Q' && c2 == 'm' && decide (rest.length = 44) && rest.all isBase58Char
  | _ => false

/-- `CID_V1_PATTERN = /^b[a-z2-7]{58,}$/` (declared in the source; the spec
describes version-1 validation in its terms). -/
def cidV1Pattern (cs : List Char) : Bool :=
  match cs with
  | c1 :: rest => c1 == 'b' && decide (58 ≤ rest.length) && rest.all isBase32Char
  | _ => false

/-- `CID_BASE32_PATTERN = /^ba[a-z2-7]+$/`. -/
def cidBase32Pattern (cs : List Char) : Bool :=
  match cs with
  | c1 :: c2 :: rest => c1 == 'b' && c2 == 'a' && !rest.isEmpty && rest.all isBase32Char
  | _ => false

/-- `validateCid`: `Qm`-prefixed strings are tested against the v0 pattern;
`b`-prefixed strings are accepted by length alone (`length >= 59`); the
`ba` branch of the source is unreachable behind the `b` branch. -/
def validateCid (s : String) : Bool :=
  let cs := s.data
  if cs.isEmpty then false
  else if List.isPrefixOf ('Q' :: 'm' :: []) cs then cidV0Pattern cs
  else if List.isPrefixOf ('b' :: []) cs then decide (59 ≤ cs.length)
  else if List.isPrefixOf ('b' :: 'a' :: []) cs then cidBase32Pattern cs
  else false

/-- The `while (size < dataSize) size *= 2` loop of
`calculatePaddedPieceSize`; the fuel is an upper bound on the doubling
count, never reached before the guard fails. -/
def nextPow2Loop (dataSize : Nat) : Nat → Nat → Nat
  | 0, size => size
  | fuel+1, size =>
    if size < dataSize then nextPow2Loop dataSize fuel (size * 2) else size

/-- `calculatePaddedPieceSize`: 256 for sizes `<= 0`, else the smallest power
of two reached by doubling from 1, clamped below by 256.  `bigint` arithmetic
is arbitrary precision, embedded as `Nat` (nonnegative inputs). -/
def calculatePaddedPieceSize (dataSize : Nat) : Nat :=
  if dataSize ≤ 0 then 256
  else
    let size := nextPow2Loop dataSize dataSize 1
    if size < 256 then 256 else size

/-! ### `constants/addresses.ts` and `utils/addressUtils.ts` -/

/-- `ADDRESS_PATTERNS.ID_ADDRESS = /^[ft]0[0-9]+$/`. -/
def idAddressPattern (cs : List Char) : Bool :=
  match cs with
  | p :: z :: rest =>
    (p == 'f' || p == 't') && z == '0' && !rest.isEmpty && rest.all isDigitChar
  | _ => false

/-- `ADDRESS_PATTERNS.SECP256K1_ADDRESS = /^[ft]1[a-z2-7]{38,39}$/`. -/
def secp256k1AddressPattern (cs : List Char) : Bool :=
  match cs with
  | p :: z :: rest =>
    (p == 'f' || p == 't') && z == '1' && decide (38 ≤ rest.length) &&
      decide (rest.length ≤ 39) && rest.all isBase32Char
  | _ => false

/-- `ADDRESS_PATTERNS.ACTOR_ADDRESS = /^[ft]2[a-z2-7]{38,39}$/`. -/
def actorAddressPattern (cs : List Char) : Bool :=
  match cs with
  | p :: z :: rest =>
    (p == 'f' || p == 't') && z == '2' && decide (38 ≤ rest.length) &&
      decide (rest.length ≤ 39) && rest.all isBase32Char
  | _ => false

/-- `ADDRESS_PATTERNS.BLS_ADDRESS = /^[ft]3[a-z2-7]{84,86}$/`. -/
def blsAddressPattern (cs : List Char) : Bool :=
  match cs with
  | p :: z :: rest =>
    (p == 'f' || p == 't') && z == '3' && decide (84 ≤ rest.length) &&
      decide (rest.length ≤ 86) && rest.all isBase32Char
  | _ => false

/-- `ADDRESS_PATTERNS.DELEGATED_ADDRESS = /^[ft]4[0-9]+f[a-z2-7]+$/`.
The digit and base32 classes cannot absorb the literal `f`, so the greedy
split is the unique one. -/
def delegatedAddressPattern (cs : List Char) : Bool :=
  match cs with
  | p :: z :: rest =>
    let ds := rest.takeWhile isDigitChar
    let after := rest.dropWhile isDigitChar
    (p == 'f' || p == 't') && z == '4' && !ds.isEmpty &&
      (match after with
       | sep :: payload => sep == 'f' && !payload.isEmpty && payload.all isBase32Char
       | [] => false)
  | _ => false

/-- `ADDRESS_PATTERNS.ETH_ADDRESS = /^0x[a-fA-F0-9]{40}$/`. -/
def ethAddressPattern (cs : List Char) : Bool :=
  match cs with
  | c1 :: c2 :: rest =>
    c1 == '0' && c2 == 'x' && decide (rest.length = 40) && rest.all isHexChar
  | _ => false

/-- `getAddressType`: `f`/`t` prefix, then `parseInt` of the second character
as the protocol number, `null` outside `0..4`. -/
def getAddressType (s : String) : Option Nat :=
  let cs := s.data
  if cs.length < 2 then none
  else
    match cs.get? 0, cs.get? 1 with
    | some p, some c =>
      if p ≠ 'f' ∧ p ≠ 't' then none
      else if isDigitChar c then
        if digitVal c ≤ 4 then some (digitVal c) else none
      else none
    | _, _ => none

/-- `validateAddress`: Ethereum pattern for `0x` strings; otherwise the
`f`/`t` prefix and protocol digit select the pattern, except protocol 4
(Delegated), where only `address.length > 3` is checked. -/
def validateAddress (s : String) : Bool :=
  let cs := s.data
  if cs.isEmpty then false
  else if List.isPrefixOf ('0' :: 'x' :: []) cs then ethAddressPattern cs
  else
    match cs.get? 0 with
    | none => false
    | some p =>
      if p ≠ 'f' ∧ p ≠ 't' then false
      else
        match cs.get? 1 with
        | none => false
        | some c =>
          if isDigitChar c then
            if digitVal c = 0 then idAddressPattern cs
            else if digitVal c = 1 then secp256k1AddressPattern cs
            else if digitVal c = 2 then actorAddressPattern cs
            else if digitVal c = 3 then blsAddressPattern cs
            else if digitVal c = 4 then decide (3 < cs.length)
            else false
          else false

/-- `isRobustAddress`: a classified type that is not ID. -/
def isRobustAddress (s : String) : Bool :=
  match getAddressType s with
  | some t => decide (t ≠ 0)
  | none => false

/-- `extractIdFromAddress`: `null` unless the ID pattern matches, else
`parseInt` of the digits after the two-character prefix.  JavaScript
`parseInt` returns a double, so the exact natural-number parse modelled here
is faithful only for digit strings whose value is below `2 ^ 53`; the
round-trip theorem below is restricted accordingly. -/
def extractIdFromAddress (s : String) : Option Nat :=
  if idAddressPattern s.data then some (parseNatL (s.data.drop 2)) else none

/-- `createIdAddress`: the network prefix, `0`, and the interpolated id.
The template interpolates a JavaScript `number`; exact decimal rendering as
modelled here matches that semantics only for ids below `2 ^ 53` (the
ECMAScript ToString prints shortest round-trip digits from `2 ^ 53` and
exponential notation from `10 ^ 21` up, see `createIdAddressPow21`), so the
round-trip theorem below is restricted to that range. -/
def createIdAddress (id : Nat) (testnet : Bool) : String :=
  String.mk ((if testnet then 't' else 'f') :: '0' :: renderNat id)

/-- Modelled from the ECMAScript Number ToString semantics: the number
`10 ^ 21` prints as `1e+21` (exponential notation starts at `10 ^ 21`), so
the `createIdAddress` template produces this mainnet address at
`id = 10 ^ 21`. -/
def createIdAddressPow21 : String :=
  String.mk ('f' :: '0' :: '1' :: 'e' :: '+' :: '2' :: '1' :: [])

/-- The case-insensitive pattern `/^[ft]410f[a-f0-9]{40}$/i` tested by
`filecoinToEthAddress`. -/
def f4EamPattern (cs : List Char) : Bool :=
  match cs with
  | p :: a :: b :: c :: d :: rest =>
    (toLowerAscii p == 'f' || toLowerAscii p == 't') && a == '4' && b == '1' &&
      c == '0' && toLowerAscii d == 'f' && decide (rest.length = 40) &&
      rest.all isHexChar
  | _ => false

/-- `ethAddressToFilecoin`: validate the Ethereum pattern (throwing, modelled
as `none`, otherwise), then emit the prefix, the literal `410f`, and the 40
lower-cased hex characters. -/
def ethAddressToFilecoin (s : String) (testnet : Bool) : Option String :=
  if ethAddressPattern s.data then
    some (String.mk
      ((if testnet then 't' else 'f') :: '4' :: '1' :: '0' :: 'f' ::
        (s.data.map toLowerAscii).drop 2))
  else none

/-- `filecoinToEthAddress`: `null` unless the EAM pattern matches, else `0x`
plus the address sliced after the five-character prefix. -/
def filecoinToEthAddress (s : String) : Option String :=
  if f4EamPattern s.data then some (String.mk ('0' :: 'x' :: s.data.drop 5))
  else none

/-! ### `transport/lotusClient.ts` -/

/-- The `error` member of a Lotus JSON-RPC response body. -/
structure RpcError where
  code : Int
  message : String

/-- A Lotus JSON-RPC response body (`LotusResponse<T>`). -/
structure LotusResponseData (T : Type) where
  result : Option T := none
  rpcError : Option RpcError := none

/-- Outcome of the HTTP POST inside `LotusClient.call`: a 2xx response with a
body, an axios failure (non-2xx status with an optional parsed body, or a
connection error with no body), or a non-axios exception rethrown as-is. -/
inductive HttpOutcome (T : Type) where
  | success (dat : LotusResponseData T)
  | axiosFailure (responseData : Option (LotusResponseData T)) (message : String)
  | thrown (message : String)

/-- The result-or-throw behaviour of `LotusClient.call` as a function of the
HTTP outcome: a populated `error` field in a 2xx body throws
`Lotus RPC Error: <message>`; an axios failure throws the same if its body
carries an `error`, else `Lotus connection error: <message>`. -/
def callOutcome {T : Type} : HttpOutcome T → Except String (Option T)
  | .success dat =>
    match dat.rpcError with
    | some e => .error (String.mk (("Lotus RPC Error: ").data ++ e.message.data))
    | none => .ok dat.result
  | .axiosFailure rd msg =>
    match rd with
    | some dat =>
      match dat.rpcError with
      | some e => .error (String.mk (("Lotus RPC Error: ").data ++ e.message.data))
      | none => .error (String.mk (("Lotus connection error: ").data ++ msg.data))
    | none => .error (String.mk (("Lotus connection error: ").data ++ msg.data))
  | .thrown msg => .error msg

/-- One `call`: `const id = ++this.requestId` runs before the request is
sent, so the id and the new counter are independent of the outcome. -/
def callStep {T : Type} (requestId : Nat) (o : HttpOutcome T) :
    Nat × Except String (Option T) × Nat :=
  (requestId + 1, callOutcome o, requestId + 1)

/-- The ids handed out by a sequence of calls on one client instance whose
counter starts at `requestId` (the constructor initialises it to 0). -/
def runCallIds {T : Type} : Nat → List (HttpOutcome T) → List Nat
  | _, [] => []
  | requestId, o :: os =>
    (callStep requestId o).1 :: runCallIds (callStep requestId o).2.2 os


/-! ### Character lemmas -/

lemma char_toNat_ofNat (n : Nat) (h : n < 55296) : (Char.ofNat n).toNat = n := by
  have hv : n.isValidChar := Or.inl h
  simp [Char.ofNat, hv, Char.ofNatAux, Char.toNat, UInt32.toNat, BitVec.toNat_ofNatLt]

lemma toNat_digitChar (d : Nat) (h : d < 10) : (digitChar d).toNat = 48 + d :=
  char_toNat_ofNat (48 + d) (by omega)

lemma digitVal_digitChar (d : Nat) (h : d < 10) : digitVal (digitChar d) = d := by
  rw [digitVal, toNat_digitChar d h]
  omega

lemma isDigitChar_iff (c : Char) :
    isDigitChar c = true ↔ 48 ≤ c.toNat ∧ c.toNat ≤ 57 := by
  simp [isDigitChar]

lemma isDigitChar_digitChar (d : Nat) (h : d < 10) : isDigitChar (digitChar d) = true := by
  rw [isDigitChar_iff, toNat_digitChar d h]
  omega

lemma char_ne_of_toNat_ne {c d : Char} (h : c.toNat ≠ d.toNat) : c ≠ d := by
  intro hcd
  exact h (congrArg Char.toNat hcd)

lemma digit_ne_minus {c : Char} (h : isDigitChar c = true) : c ≠ '-' := by
  rw [isDigitChar_iff] at h
  exact char_ne_of_toNat_ne (by rw [show Char.toNat ('-') = 45 from rfl]; omega)

lemma digit_ne_plus {c : Char} (h : isDigitChar c = true) : c ≠ '+' := by
  rw [isDigitChar_iff] at h
  exact char_ne_of_toNat_ne (by rw [show Char.toNat ('+') = 43 from rfl]; omega)

lemma digit_not_dot {c : Char} (h : isDigitChar c = true) : (c == '.') = false := by
  rw [isDigitChar_iff] at h
  have : c ≠ '.' := char_ne_of_toNat_ne (by rw [show Char.toNat ('.') = 46 from rfl]; omega)
  simpa using this

lemma toLowerAscii_of_nonupper {c : Char} (h : c.toNat < 65 ∨ 90 < c.toNat) :
    toLowerAscii c = c := by
  rw [toLowerAscii, if_neg]
  omega

lemma toLowerAscii_digit {c : Char} (h : isDigitChar c = true) : toLowerAscii c = c := by
  rw [isDigitChar_iff] at h
  exact toLowerAscii_of_nonupper (by omega)

lemma toLowerAscii_lower {c : Char} (h : isLowerAlpha c = true) : toLowerAscii c = c := by
  simp only [isLowerAlpha, Bool.and_eq_true, decide_eq_true_iff] at h
  exact toLowerAscii_of_nonupper (by omega)

lemma isHexChar_toLowerAscii {c : Char} (h : isHexChar c = true) :
    isHexChar (toLowerAscii c) = true ∧
      (decide (97 ≤ (toLowerAscii c).toNat) && decide ((toLowerAscii c).toNat ≤ 102)
        || isDigitChar (toLowerAscii c)) = true := by
  simp only [isHexChar, isDigitChar, Bool.or_eq_true, Bool.and_eq_true,
    decide_eq_true_iff] at h ⊢
  rcases h with (h | h) | h
  · rw [toLowerAscii_of_nonupper (by omega)]
    omega
  · rw [toLowerAscii_of_nonupper (by omega)]
    omega
  · have : toLowerAscii c = Char.ofNat (c.toNat + 32) := by
      rw [toLowerAscii, if_pos]
      omega
    rw [this, char_toNat_ofNat _ (by omega)]
    omega

/-! ### Decimal digit-list lemmas -/

lemma natDigitsAux_zero (fuel : Nat) : natDigitsAux fuel 0 = [] := by
  cases fuel <;> simp [natDigitsAux]

lemma natDigitsAux_eq (fuel n : Nat) (h : n ≤ fuel) : natDigitsAux fuel n = natDigits n := by
  induction n using Nat.strong_induction_on generalizing fuel with
  | _ n ih =>
    by_cases hn : n = 0
    · subst hn; rw [natDigitsAux_zero, natDigits, natDigitsAux_zero]
    · obtain ⟨f, rfl⟩ : ∃ f, fuel = f + 1 := ⟨fuel - 1, by omega⟩
      obtain ⟨m, rfl⟩ : ∃ m, n = m + 1 := ⟨n - 1, by omega⟩
      have hd : (m+1) / 10 < m+1 := Nat.div_lt_self (by omega) (by norm_num)
      have l1 : natDigitsAux (f+1) (m+1) = (m+1) % 10 :: natDigitsAux f ((m+1)/10) := by
        simp [natDigitsAux]
      have l2 : natDigitsAux (m+1) (m+1) = (m+1) % 10 :: natDigitsAux m ((m+1)/10) := by
        simp [natDigitsAux]
      rw [l1, ih ((m+1)/10) hd f (by omega)]
      conv_rhs => rw [natDigits]
      rw [l2, ih ((m+1)/10) hd m (by omega)]

lemma natDigits_cons (n : Nat) (hn : n ≠ 0) :
    natDigits n = n % 10 :: natDigits (n / 10) := by
  obtain ⟨m, rfl⟩ : ∃ m, n = m + 1 := ⟨n - 1, by omega⟩
  have l2 : natDigitsAux (m+1) (m+1) = (m+1) % 10 :: natDigitsAux m ((m+1)/10) := by
    simp [natDigitsAux]
  conv_lhs => rw [natDigits]
  rw [l2, natDigitsAux_eq m ((m+1)/10) (by omega)]

lemma ofDigitsLE_cons (d : Nat) (ds : List Nat) :
    ofDigitsLE (d :: ds) = d + 10 * ofDigitsLE ds := rfl

lemma ofDigitsLE_natDigits (n : Nat) : ofDigitsLE (natDigits n) = n := by
  induction n using Nat.strong_induction_on with
  | _ n ih =>
    by_cases hn : n = 0
    · subst hn; rfl
    · have hd : n / 10 < n := Nat.div_lt_self (by omega) (by norm_num)
      rw [natDigits_cons n hn, ofDigitsLE_cons, ih (n/10) hd]
      omega

lemma natDigits_lt (n : Nat) (d : Nat) (hd : d ∈ natDigits n) : d < 10 := by
  induction n using Nat.strong_induction_on with
  | _ n ih =>
    by_cases hn : n = 0
    · subst hn; rw [show natDigits 0 = [] from rfl] at hd; simp at hd
    · rw [natDigits_cons n hn] at hd
      rcases List.mem_cons.mp hd with h | h
      · subst h; exact Nat.mod_lt _ (by norm_num)
      · exact ih (n/10) (Nat.div_lt_self (by omega) (by norm_num)) h

lemma natDigits_length_le (n k : Nat) (h : n < 10 ^ k) : (natDigits n).length ≤ k := by
  induction n using Nat.strong_induction_on generalizing k with
  | _ n ih =>
    by_cases hn : n = 0
    · subst hn; rw [show natDigits 0 = [] from rfl]; simp
    · obtain ⟨j, rfl⟩ : ∃ j, k = j + 1 := by
        refine ⟨k - 1, ?_⟩
        have : k ≠ 0 := by rintro rfl; simp at h; omega
        omega
      rw [natDigits_cons n hn]
      simp only [List.length_cons]
      have hp : (10:Nat) ^ (j+1) = 10 ^ j * 10 := pow_succ 10 j
      have hlt : n / 10 < 10 ^ j := by
        rw [Nat.div_lt_iff_lt_mul (by norm_num)]
        omega
      have := ih (n/10) (Nat.div_lt_self (by omega) (by norm_num)) j hlt
      omega

lemma natDigits_ne_nil (n : Nat) (hn : n ≠ 0) : natDigits n ≠ [] := by
  rw [natDigits_cons n hn]
  simp

lemma natDigits_mul_pow10 (x k : Nat) (hx : x ≠ 0) :
    natDigits (x * 10 ^ k) = List.replicate k 0 ++ natDigits x := by
  induction k with
  | zero => simp
  | succ j ih =>
    have hne : x * 10 ^ (j+1) ≠ 0 := by positivity
    rw [natDigits_cons _ hne]
    have h1 : x * 10 ^ (j+1) = (x * 10 ^ j) * 10 := by ring
    have h2 : (x * 10 ^ (j+1)) % 10 = 0 := by omega
    have h3 : (x * 10 ^ (j+1)) / 10 = x * 10 ^ j := by omega
    rw [h2, h3, ih]
    simp [List.replicate_succ]


/-! ### Rendering and parsing round-trip lemmas -/

lemma parseNatL_append_one (xs : List Char) (c : Char) :
    parseNatL (xs ++ [c]) = 10 * parseNatL xs + digitVal c := by
  rw [parseNatL, List.foldl_append]
  rfl

lemma parseNatL_rev_map (ds : List Nat) (h : ∀ d ∈ ds, d < 10) :
    parseNatL (ds.reverse.map digitChar) = ofDigitsLE ds := by
  induction ds with
  | nil => rfl
  | cons d ds ih =>
    rw [List.reverse_cons, List.map_append, List.map_singleton, parseNatL_append_one,
      ih (fun x hx => h x (List.mem_cons_of_mem d hx)),
      digitVal_digitChar d (h d (List.mem_cons_self d ds)), ofDigitsLE_cons]
    ring

lemma parseNatL_renderNat (n : Nat) : parseNatL (renderNat n) = n := by
  by_cases hn : n = 0
  · subst hn; rfl
  · rw [renderNat, if_neg hn, parseNatL_rev_map _ (natDigits_lt n), ofDigitsLE_natDigits]

lemma renderNat_all_digits (n : Nat) : ∀ c ∈ renderNat n, isDigitChar c = true := by
  intro c hc
  rw [renderNat] at hc
  by_cases hn : n = 0
  · rw [if_pos hn] at hc
    simp only [List.mem_singleton] at hc
    subst hc; rfl
  · rw [if_neg hn] at hc
    obtain ⟨d, hd, rfl⟩ := List.mem_map.mp hc
    exact isDigitChar_digitChar d (natDigits_lt n d (List.mem_reverse.mp hd))

lemma renderNat_ne_nil (n : Nat) : renderNat n ≠ [] := by
  rw [renderNat]
  by_cases hn : n = 0
  · rw [if_pos hn]; simp
  · rw [if_neg hn]
    simp only [ne_eq, List.map_eq_nil_iff, List.reverse_eq_nil_iff]
    exact natDigits_ne_nil n hn

lemma takeWhile_eq_self_of_all {α : Type} {p : α → Bool} {l : List α}
    (h : ∀ a ∈ l, p a = true) : l.takeWhile p = l := by
  induction l with
  | nil => rfl
  | cons a l ih =>
    rw [List.takeWhile_cons, if_pos (h a (List.mem_cons_self a l))]
    rw [ih (fun x hx => h x (List.mem_cons_of_mem a hx))]

lemma dropWhile_eq_nil_of_all {α : Type} {p : α → Bool} {l : List α}
    (h : ∀ a ∈ l, p a = true) : l.dropWhile p = [] := by
  induction l with
  | nil => rfl
  | cons a l ih =>
    rw [List.dropWhile_cons, if_pos (h a (List.mem_cons_self a l))]
    exact ih (fun x hx => h x (List.mem_cons_of_mem a hx))

lemma takeWhile_append_all {α : Type} {p : α → Bool} {xs : List α} (ys : List α)
    (h : ∀ a ∈ xs, p a = true) : (xs ++ ys).takeWhile p = xs ++ ys.takeWhile p := by
  induction xs with
  | nil => rfl
  | cons a xs ih =>
    rw [List.cons_append, List.takeWhile_cons, if_pos (h a (List.mem_cons_self a xs)),
      ih (fun x hx => h x (List.mem_cons_of_mem a hx)), List.cons_append]

lemma dropWhile_append_all {α : Type} {p : α → Bool} {xs : List α} (ys : List α)
    (h : ∀ a ∈ xs, p a = true) : (xs ++ ys).dropWhile p = ys.dropWhile p := by
  induction xs with
  | nil => rfl
  | cons a xs ih =>
    rw [List.cons_append, List.dropWhile_cons, if_pos (h a (List.mem_cons_self a xs)),
      ih (fun x hx => h x (List.mem_cons_of_mem a hx))]

lemma parseUnsigned_all_digits (cs : List Char) (hne : cs ≠ [])
    (h : ∀ a ∈ cs, isDigitChar a = true) :
    parseUnsigned cs = some ((parseNatL cs : ℚ)) := by
  rw [parseUnsigned]
  simp only [takeWhile_eq_self_of_all h, dropWhile_eq_nil_of_all h]
  simp [hne]

lemma parseDecimal_renderNat (n : Nat) :
    parseDecimal (renderNat n) = some ((n : ℚ)) := by
  obtain ⟨c, rest, hc⟩ : ∃ c rest, renderNat n = c :: rest := by
    cases hr : renderNat n with
    | nil => exact absurd hr (renderNat_ne_nil n)
    | cons c rest => exact ⟨c, rest, rfl⟩
  have hdig : isDigitChar c = true := by
    refine renderNat_all_digits n c ?_
    rw [hc]; exact List.mem_cons_self c rest
  rw [hc, parseDecimal, if_neg (digit_ne_minus hdig), if_neg (digit_ne_plus hdig), ← hc,
    parseUnsigned_all_digits _ (renderNat_ne_nil n) (renderNat_all_digits n),
    parseNatL_renderNat]


/-! ### Scaled rendering lemmas -/

lemma ofDigitsLE_append (xs ys : List Nat) :
    ofDigitsLE (xs ++ ys) = ofDigitsLE xs + 10 ^ xs.length * ofDigitsLE ys := by
  induction xs with
  | nil => simp [ofDigitsLE]
  | cons d xs ih =>
    rw [List.cons_append, ofDigitsLE_cons, ih, ofDigitsLE_cons]
    rw [List.length_cons, pow_succ]
    ring

lemma ofDigitsLE_replicate_zero (k : Nat) : ofDigitsLE (List.replicate k 0) = 0 := by
  induction k with
  | zero => rfl
  | succ j ih => rw [List.replicate_succ, ofDigitsLE_cons, ih]

lemma parseNatL_map (ds : List Nat) (h : ∀ d ∈ ds, d < 10) :
    parseNatL (ds.map digitChar) = ofDigitsLE ds.reverse := by
  have := parseNatL_rev_map ds.reverse (fun d hd => h d (List.mem_reverse.mp hd))
  rwa [List.reverse_reverse] at this

lemma mem_dropWhile_natDigits (f : Nat) (d : Nat)
    (hd : d ∈ (natDigits f).dropWhile (· = 0)) : d < 10 :=
  natDigits_lt f d ((List.dropWhile_sublist _).mem hd)

lemma natDigits_decompose (f : Nat) :
    f = 10 ^ ((natDigits f).takeWhile (· = 0)).length *
      ofDigitsLE ((natDigits f).dropWhile (· = 0)) := by
  conv_lhs => rw [← ofDigitsLE_natDigits f, ← List.takeWhile_append_dropWhile
    (p := fun d => decide (d = 0)) (l := natDigits f)]
  rw [ofDigitsLE_append]
  have hz : (natDigits f).takeWhile (· = 0) =
      List.replicate ((natDigits f).takeWhile (· = 0)).length 0 := by
    refine List.eq_replicate_of_mem ?_
    intro b hb
    have := List.mem_takeWhile_imp hb
    simpa using this
  rw [hz, ofDigitsLE_replicate_zero, List.length_replicate]
  omega

lemma dropWhile_natDigits_ne_nil (f : Nat) (hf : f ≠ 0) :
    (natDigits f).dropWhile (· = 0) ≠ [] := by
  intro hnil
  have : f = 10 ^ ((natDigits f).takeWhile (· = 0)).length * ofDigitsLE [] := by
    conv_lhs => rw [natDigits_decompose f]
    rw [hnil]
  rw [show ofDigitsLE [] = 0 from rfl] at this
  omega

lemma frac_chars_all_digits (f e : Nat) :
    ∀ c ∈ (List.replicate (e - (natDigits f).length) 0 ++
        ((natDigits f).dropWhile (· = 0)).reverse).map digitChar,
      isDigitChar c = true := by
  intro c hc
  obtain ⟨d, hd, rfl⟩ := List.mem_map.mp hc
  refine isDigitChar_digitChar d ?_
  rcases List.mem_append.mp hd with h | h
  · have := List.eq_of_mem_replicate h
    omega
  · exact mem_dropWhile_natDigits f d (List.mem_reverse.mp h)

lemma parseNatL_frac_chars (f e : Nat) :
    parseNatL ((List.replicate (e - (natDigits f).length) 0 ++
        ((natDigits f).dropWhile (· = 0)).reverse).map digitChar) =
      ofDigitsLE ((natDigits f).dropWhile (· = 0)) := by
  rw [parseNatL_map]
  · rw [List.reverse_append, List.reverse_reverse, List.reverse_replicate,
      ofDigitsLE_append, ofDigitsLE_replicate_zero]
    ring
  · intro d hd
    rcases List.mem_append.mp hd with h | h
    · have := List.eq_of_mem_replicate h
      omega
    · exact mem_dropWhile_natDigits f d (List.mem_reverse.mp h)

lemma parseUnsigned_int_frac (ipChars fracChars : List Char) (hipne : ipChars ≠ [])
    (hipd : ∀ c ∈ ipChars, isDigitChar c = true)
    (hfd : ∀ c ∈ fracChars, isDigitChar c = true) :
    parseUnsigned (ipChars ++ '.' :: fracChars) =
      some ((parseNatL ipChars : ℚ) + (parseNatL fracChars : ℚ) / 10 ^ fracChars.length) := by
  have hdot : isDigitChar ('.') = false := rfl
  have htake : (ipChars ++ '.' :: fracChars).takeWhile isDigitChar = ipChars := by
    rw [takeWhile_append_all _ hipd, List.takeWhile_cons, hdot]
    simp
  have hdrop : (ipChars ++ '.' :: fracChars).dropWhile isDigitChar = '.' :: fracChars := by
    rw [dropWhile_append_all _ hipd, List.dropWhile_cons, hdot]
    simp
  have hipe : ipChars.isEmpty = false := by
    cases ipChars with
    | nil => exact absurd rfl hipne
    | cons x xs => rfl
  rw [parseUnsigned]
  simp only [htake, hdrop, List.isEmpty_cons, List.head?_cons, List.tail_cons, hipe]
  rw [if_neg (by simp), if_pos]
  simp only [beq_self_eq_true, Bool.true_and, Bool.false_and, Bool.not_false, Bool.and_true]
  exact List.all_eq_true.mpr hfd

lemma parseDecimal_cons_digit (c : Char) (rest : List Char)
    (hdig : isDigitChar c = true) :
    parseDecimal (c :: rest) = parseUnsigned (c :: rest) := by
  rw [parseDecimal, if_neg (digit_ne_minus hdig), if_neg (digit_ne_plus hdig)]

lemma parseDecimal_renderScaled (n e : Nat) :
    parseDecimal (renderScaled n e) = some ((n : ℚ) / 10 ^ e) := by
  have h0 := Nat.div_add_mod n (10 ^ e)
  by_cases hf : n % 10 ^ e = 0
  · simp only [renderScaled]
    rw [if_pos hf, parseDecimal_renderNat]
    congr 1
    have hn : (n : ℚ) = ((n / 10 ^ e : ℕ) : ℚ) * 10 ^ e := by
      have hee : n = 10 ^ e * (n / 10 ^ e) := by omega
      conv_lhs => rw [hee]
      push_cast
      ring
    rw [hn]
    field_simp
  · simp only [renderScaled]
    rw [if_neg hf]
    have hfd := frac_chars_all_digits (n % 10 ^ e) e
    obtain ⟨x, xs, hh⟩ : ∃ x xs, renderNat (n / 10 ^ e) = x :: xs := by
      cases hr : renderNat (n / 10 ^ e) with
      | nil => exact absurd hr (renderNat_ne_nil _)
      | cons x xs => exact ⟨x, xs, rfl⟩
    have hxd : isDigitChar x = true := by
      refine renderNat_all_digits (n / 10 ^ e) x ?_
      rw [hh]
      exact List.mem_cons_self x xs
    rw [hh, List.cons_append, parseDecimal_cons_digit x _ hxd, ← List.cons_append, ← hh]
    rw [parseUnsigned_int_frac _ _ (renderNat_ne_nil _) (renderNat_all_digits _) hfd]
    rw [parseNatL_renderNat, parseNatL_frac_chars]
    congr 1
    set ds := natDigits (n % 10 ^ e) with hds
    set t := (ds.takeWhile (· = 0)).length with ht
    set g := ofDigitsLE (ds.dropWhile (· = 0)) with hg
    have hfg : n % 10 ^ e = 10 ^ t * g := natDigits_decompose (n % 10 ^ e)
    have hlen : ds.length ≤ e := by
      rw [hds]
      exact natDigits_length_le _ e (Nat.mod_lt n (by positivity))
    have htlen : t + (ds.dropWhile (· = 0)).length = ds.length := by
      rw [ht, ← List.length_append, List.takeWhile_append_dropWhile]
    have hfclen : (((List.replicate (e - ds.length) 0 ++
        (ds.dropWhile (· = 0)).reverse)).map digitChar).length = e - t := by
      rw [List.length_map, List.length_append, List.length_replicate,
        List.length_reverse]
      omega
    rw [hfclen]
    have hepow : (10 : ℚ) ^ e = 10 ^ (e - t) * 10 ^ t := by
      rw [← pow_add]
      congr 1
      omega
    have hnq : (n : ℚ) = ((n / 10 ^ e : ℕ) : ℚ) * 10 ^ e + 10 ^ t * (g : ℚ) := by
      have hn : n = 10 ^ e * (n / 10 ^ e) + 10 ^ t * g := by omega
      conv_lhs => rw [hn]
      push_cast
      ring
    rw [hnq, hepow]
    have hne1 : ((10 : ℚ) ^ (e - t)) ≠ 0 := by positivity
    have hne2 : ((10 : ℚ) ^ t) ≠ 0 := by positivity
    field_simp
    ring

lemma renderScaled_mul_pow10 (m e k : Nat) :
    renderScaled (m * 10 ^ k) (e + k) = renderScaled m e := by
  have hpow : (10 : Nat) ^ (e + k) = 10 ^ e * 10 ^ k := pow_add 10 e k
  have hi : m * 10 ^ k / 10 ^ (e + k) = m / 10 ^ e := by
    rw [hpow, Nat.mul_div_mul_right _ _ (by positivity : 0 < 10 ^ k)]
  have hm : m * 10 ^ k % 10 ^ (e + k) = (m % 10 ^ e) * 10 ^ k := by
    rw [hpow, Nat.mul_mod_mul_right]
  by_cases hf : m % 10 ^ e = 0
  · simp only [renderScaled]
    rw [hi, hm, hf, if_pos rfl, if_pos (by simp)]
  · have hf2 : (m % 10 ^ e) * 10 ^ k ≠ 0 :=
      Nat.mul_ne_zero hf (by positivity)
    simp only [renderScaled]
    rw [hi, hm, if_neg hf, if_neg hf2]
    congr 1
    rw [natDigits_mul_pow10 _ _ hf]
    have hzeros : ∀ d ∈ List.replicate k (0 : Nat), (decide (d = 0)) = true := by
      intro d hd
      simp [List.eq_of_mem_replicate hd]
    congr 1
    rw [dropWhile_append_all _ hzeros, List.length_append, List.length_replicate]
    congr 3
    omega


/-! ### Exactness of the BigNumber operations used by the converters -/

lemma truncQ_intCast (z : Int) : truncQ ((z : ℚ)) = z := by
  rw [truncQ, Rat.num_intCast, Rat.den_intCast]
  cases z <;> simp [Int.tdiv, Int.negSucc_eq]

lemma bnRound36_exact (q : ℚ) (z : Int) (h : q * 10 ^ 36 = (z : ℚ)) :
    bnRound36 q = q := by
  rw [bnRound36, h, truncQ_intCast, ← h]
  field_simp

lemma bnDiv_nat_exact (n : Nat) : bnDiv ((n : ℚ)) (10 ^ 18) = (n : ℚ) / 10 ^ 18 := by
  rw [bnDiv]
  refine bnRound36_exact _ ((n : Int) * 10 ^ 18) ?_
  push_cast
  field_simp
  ring

lemma bnToFixed_nat_div (n : Nat) :
    bnToFixed ((n : ℚ) / 10 ^ 18) = renderScaled n 18 := by
  have hq : ((n : ℚ) / 10 ^ 18) * 10 ^ 36 = ((n * 10 ^ 18 : ℕ) : ℚ) := by
    push_cast
    field_simp
    ring
  rw [bnToFixed, if_neg (not_lt.mpr (by positivity)), hq, Rat.num_natCast,
    Int.toNat_natCast]
  have h36 : (36 : Nat) = 18 + 18 := rfl
  rw [h36, renderScaled_mul_pow10 n 18 18]

/-! ### The doubling loop of `calculatePaddedPieceSize` -/

lemma nextPow2Loop_spec (n : Nat) (fuel : Nat) :
    ∀ s : Nat, 0 < s → n ≤ s * 2 ^ fuel → (∃ j, s = 2 ^ j) →
      (∃ j, nextPow2Loop n fuel s = 2 ^ j) ∧ n ≤ nextPow2Loop n fuel s ∧
        (nextPow2Loop n fuel s = s ∨ nextPow2Loop n fuel s < 2 * n) := by
  induction fuel with
  | zero =>
    intro s hs hle hj
    rw [pow_zero, mul_one] at hle
    rw [nextPow2Loop]
    exact ⟨hj, hle, Or.inl rfl⟩
  | succ f ih =>
    intro s hs hle hj
    rw [nextPow2Loop]
    by_cases hlt : s < n
    · rw [if_pos hlt]
      obtain ⟨j, hjs⟩ := hj
      have h2 : n ≤ s * 2 * 2 ^ f := by
        rw [mul_assoc, mul_comm 2 (2 ^ f), ← pow_succ]
        exact hle
      obtain ⟨hj2, hle2, hcase⟩ := ih (s * 2) (by omega) h2 ⟨j + 1, by rw [hjs, pow_succ]⟩
      refine ⟨hj2, hle2, Or.inr ?_⟩
      rcases hcase with h | h
      · rw [h]; omega
      · exact h
    · rw [if_neg hlt]
      exact ⟨hj, by omega, Or.inl rfl⟩

lemma pow2_squeeze {a b : Nat} (h1 : 2 ^ b ≤ 2 ^ a) (h2 : 2 ^ a < 2 * 2 ^ b) :
    2 ^ a = 2 ^ b := by
  have hba : b ≤ a := (Nat.pow_le_pow_iff_right (by norm_num)).mp h1
  have hab : a < b + 1 := by
    by_contra hcon
    have : 2 ^ (b + 1) ≤ 2 ^ a := Nat.pow_le_pow_right (by norm_num) (by omega)
    rw [pow_succ] at this
    omega
  have : a = b := by omega
  rw [this]

lemma calculatePaddedPieceSize_spec (n : Nat) :
    (∃ j, calculatePaddedPieceSize n = 2 ^ j) ∧
      n ≤ calculatePaddedPieceSize n ∧
      256 ≤ calculatePaddedPieceSize n ∧
      (n < 256 → calculatePaddedPieceSize n = 256) ∧
      (256 ≤ n → (∃ j, n = 2 ^ j) → calculatePaddedPieceSize n = n) ∧
      (256 ≤ n → calculatePaddedPieceSize n < 2 * n) := by
  by_cases hn : n = 0
  · subst hn
    refine ⟨⟨8, rfl⟩, by norm_num [calculatePaddedPieceSize], ?_, ?_, ?_, ?_⟩ <;>
      norm_num [calculatePaddedPieceSize]
  · have hfuel : n ≤ 1 * 2 ^ n := by
      rw [one_mul]
      exact le_of_lt (Nat.lt_two_pow n)
    obtain ⟨⟨j, hj⟩, hle, hcase⟩ :=
      nextPow2Loop_spec n n 1 (by norm_num) hfuel ⟨0, rfl⟩
    set r := nextPow2Loop n n 1 with hr
    have hr2n : r < 2 * n := by
      rcases hcase with h | h
      · rw [h] at hle ⊢
        omega
      · exact h
    have hcalc : calculatePaddedPieceSize n = if r < 256 then 256 else r := by
      rw [calculatePaddedPieceSize, if_neg (by omega)]
    have hmax : calculatePaddedPieceSize n = max 256 r := by
      rw [hcalc]
      rcases Nat.lt_or_ge r 256 with h | h
      · rw [if_pos h, Nat.max_eq_left (by omega)]
      · rw [if_neg (by omega), Nat.max_eq_right h]
    refine ⟨?_, ?_, ?_, ?_, ?_, ?_⟩
    · rw [hmax]
      rcases Nat.lt_or_ge r 256 with h | h
      · rw [Nat.max_eq_left (by omega)]; exact ⟨8, rfl⟩
      · rw [Nat.max_eq_right h]; exact ⟨j, hj⟩
    · rw [hmax]; omega
    · rw [hmax]; omega
    · intro h256
      rw [hmax, Nat.max_eq_left]
      have : r < 512 := by omega
      have h9 : r < 2 ^ 9 := by omega
      rw [hj] at h9 ⊢
      have : j ≤ 8 := by
        by_contra hcon
        have : 2 ^ 9 ≤ 2 ^ j := Nat.pow_le_pow_right (by norm_num) (by omega)
        omega
      calc 2 ^ j ≤ 2 ^ 8 := Nat.pow_le_pow_right (by norm_num) this
        _ ≤ 256 := by norm_num
    · rintro h256 ⟨i, rfl⟩
      have hri : r = 2 ^ i := by
        rw [hj]
        exact pow2_squeeze (hj ▸ hle) (hj ▸ hr2n)
      rw [hmax, hri, Nat.max_eq_right (by omega)]
    · intro h256
      rw [hmax]
      have : (256 : Nat) ≤ n := h256
      omega

/-! ### Request-id lemmas for the Lotus client -/

lemma runCallIds_range (T : Type) (os : List (HttpOutcome T)) :
    ∀ st : Nat, runCallIds st os = List.range' (st + 1) os.length := by
  induction os with
  | nil => intro st; rfl
  | cons o os ih =>
    intro st
    rw [runCallIds, callStep, List.length_cons, List.range'_succ]
    exact congrArg _ (ih (st + 1))


/-! ### The division loop of `formatBytes` and the `parseBytes` table -/

lemma fbLoop_spec : ∀ k fuel i : Nat, ∀ v : ℚ, k ≤ fuel → i + k ≤ 6 →
    (1024 ^ k ≤ v ∨ k = 0) → (v < 1024 ^ (k + 1) ∨ i + k = 6) →
    fbLoop fuel v i = (v / 1024 ^ k, i + k) := by
  intro k
  induction k with
  | zero =>
    intro fuel i v _ hi6 _ hhigh
    have hguard : ¬(1024 ≤ v ∧ i < 6) := by
      rcases hhigh with h | h
      · rintro ⟨hc, _⟩
        rw [pow_one] at h
        exact absurd h (not_lt.mpr hc)
      · rintro ⟨_, hc⟩
        omega
    cases fuel with
    | zero =>
      rw [fbLoop, pow_zero, div_one, Nat.add_zero]
    | succ f =>
      rw [fbLoop, if_neg hguard, pow_zero, div_one, Nat.add_zero]
  | succ k ih =>
    intro fuel i v hkf hi6 hlow hhigh
    have hlow2 : 1024 ^ (k + 1) ≤ v := by
      rcases hlow with h | h
      · exact h
      · omega
    have h1024 : (1024 : ℚ) ≤ v := by
      calc (1024 : ℚ) = 1024 ^ 1 := (pow_one _).symm
        _ ≤ 1024 ^ (k + 1) := by
          apply pow_le_pow_right₀ (by norm_num)
          omega
        _ ≤ v := hlow2
    obtain ⟨f, rfl⟩ : ∃ f, fuel = f + 1 := ⟨fuel - 1, by omega⟩
    rw [fbLoop, if_pos ⟨h1024, by omega⟩]
    have hstep : fbLoop f (v / 1024) (i + 1) = (v / 1024 / 1024 ^ k, i + 1 + k) := by
      refine ih f (i + 1) (v / 1024) (by omega) (by omega) ?_ ?_
      · by_cases hk : k = 0
        · exact Or.inr hk
        · left
          rw [le_div_iff₀ (by norm_num)]
          calc (1024 : ℚ) ^ k * 1024 = 1024 ^ (k + 1) := by rw [pow_succ]
            _ ≤ v := hlow2
      · rcases hhigh with h | h
        · left
          rw [div_lt_iff₀ (by norm_num)]
          calc v < 1024 ^ (k + 1 + 1) := h
            _ = 1024 ^ (k + 1) * 1024 := by rw [pow_succ]
        · right
          omega
    rw [hstep, div_div, ← pow_succ']
    refine congrArg _ ?_
    omega

lemma formatBytes_eq (n k : Nat) (hk : k ≤ 6) (hlow : 1024 ^ k ≤ n ∨ k = 0)
    (hhigh : n < 1024 ^ (k + 1) ∨ k = 6) :
    formatBytes n =
      String.mk (toFixed2 ((n : ℚ) / 1024 ^ k) ++ ' ' :: fbUnits.getD k []) := by
  have hloop : fbLoop 6 ((n : ℚ)) 0 = ((n : ℚ) / 1024 ^ k, 0 + k) := by
    refine fbLoop_spec k 6 0 ((n : ℚ)) hk (by omega) ?_ ?_
    · rcases hlow with h | h
      · left
        calc ((1024 : ℚ)) ^ k = ((1024 ^ k : ℕ) : ℚ) := by push_cast; ring
          _ ≤ (n : ℚ) := by exact_mod_cast h
      · exact Or.inr h
    · rcases hhigh with h | h
      · left
        calc (n : ℚ) < ((1024 ^ (k + 1) : ℕ) : ℚ) := by exact_mod_cast h
          _ = (1024 : ℚ) ^ (k + 1) := by push_cast; ring
      · right
        omega
  rw [formatBytes, hloop]
  norm_num

lemma floor_natCast (n : Nat) : Rat.floor ((n : ℚ)) = (n : Int) := by
  rw [Rat.floor_def', Rat.num_natCast, Rat.den_natCast]
  norm_num

lemma isSpaceChar_of_lower {c : Char} (h : isLowerAlpha c = true) :
    isSpaceChar c = false := by
  simp only [isLowerAlpha, Bool.and_eq_true, decide_eq_true_iff] at h
  have h1 : (c == ' ') = false := by
    simpa using char_ne_of_toNat_ne (by rw [show Char.toNat (' ') = 32 from rfl]; omega)
  have h2 : (c == '\t') = false := by
    simpa using char_ne_of_toNat_ne (by rw [show Char.toNat ('\t') = 9 from rfl]; omega)
  have h3 : (c == '\n') = false := by
    simpa using char_ne_of_toNat_ne (by rw [show Char.toNat ('\n') = 10 from rfl]; omega)
  have h4 : (c == '\r') = false := by
    simpa using char_ne_of_toNat_ne (by rw [show Char.toNat ('\r') = 13 from rfl]; omega)
  rw [isSpaceChar, h1, h2, h3, h4]
  rfl

lemma num_pred_of_digit {c : Char} (h : isDigitChar c = true) :
    (isDigitChar c || c == '.') = true := by
  rw [h, Bool.true_or]

lemma num_pred_space : (isDigitChar (' ') || (' ') == '.') = false := rfl

lemma jsParseFloat_renderNat (n : Nat) :
    jsParseFloat (renderNat n) = some ((n : ℚ)) := by
  obtain ⟨x, xs, hh⟩ : ∃ x xs, renderNat n = x :: xs := by
    cases hr : renderNat n with
    | nil => exact absurd hr (renderNat_ne_nil n)
    | cons x xs => exact ⟨x, xs, rfl⟩
  have hxd : isDigitChar x = true := by
    refine renderNat_all_digits n x ?_
    rw [hh]
    exact List.mem_cons_self x xs
  rw [hh, jsParseFloat, if_neg (digit_ne_minus hxd), if_neg (digit_ne_plus hxd), ← hh]
  rw [jsParseFloatUnsigned]
  simp only [takeWhile_eq_self_of_all (renderNat_all_digits n),
    dropWhile_eq_nil_of_all (renderNat_all_digits n)]
  have hipe : (renderNat n).isEmpty = false := by
    rw [hh]
    rfl
  simp only [List.head?_nil, hipe]
  rw [if_neg (by simp)]
  rw [parseNatL_renderNat]
  norm_num
  rfl

lemma byteUnits_names : ∀ p ∈ byteUnits, (!p.1.isEmpty && p.1.all isLowerAlpha) = true := by
  decide

lemma byteUnits_lookup : ∀ p ∈ byteUnits,
    byteUnits.find? (fun q => q.1 == p.1) = some p := by
  decide

lemma data_mk (cs : List Char) : (String.mk cs).data = cs := rfl

lemma toLowerAscii_space : toLowerAscii (' ') = ' ' := rfl

lemma parseBytes_suffix (n : Nat) (u : List Char) (m : Nat)
    (hmem : (u, m) ∈ byteUnits) :
    parseBytes (String.mk (renderNat n ++ ' ' :: u)) = some ((n : Int) * (m : Int)) := by
  have hu : (!u.isEmpty && u.all isLowerAlpha) = true := byteUnits_names (u, m) hmem
  simp only [Bool.and_eq_true, Bool.not_eq_true'] at hu
  obtain ⟨hune, hual⟩ := hu
  have hulower : ∀ c ∈ u, isLowerAlpha c = true := List.all_eq_true.mp hual
  have hlookup : byteUnits.find? (fun q => q.1 == u) = some (u, m) :=
    byteUnits_lookup (u, m) hmem
  have hmap : (renderNat n ++ ' ' :: u).map toLowerAscii = renderNat n ++ ' ' :: u := by
    rw [List.map_append, List.map_cons, toLowerAscii_space,
      List.map_congr_left (fun c hc => toLowerAscii_digit (renderNat_all_digits n c hc)),
      List.map_id', List.map_congr_left (fun c hc => toLowerAscii_lower (hulower c hc)),
      List.map_id']
  have hnum : (renderNat n ++ ' ' :: u).takeWhile (fun c => isDigitChar c || c == '.') =
      renderNat n := by
    rw [takeWhile_append_all _ (fun c hc => num_pred_of_digit (renderNat_all_digits n c hc)),
      List.takeWhile_cons, num_pred_space]
    simp
  have hrest : (renderNat n ++ ' ' :: u).dropWhile (fun c => isDigitChar c || c == '.') =
      ' ' :: u := by
    rw [dropWhile_append_all _ (fun c hc => num_pred_of_digit (renderNat_all_digits n c hc)),
      List.dropWhile_cons, num_pred_space]
    simp
  have hsp : isSpaceChar (' ') = true := rfl
  have hunit : (' ' :: u).dropWhile isSpaceChar = u := by
    rw [List.dropWhile_cons, if_pos hsp]
    cases hcu : u with
    | nil => rfl
    | cons y ys =>
      have hy : isLowerAlpha y = true := by
        refine hulower y ?_
        rw [hcu]
        exact List.mem_cons_self y ys
      rw [List.dropWhile_cons, isSpaceChar_of_lower hy]
      simp
  have h1 : (renderNat n).isEmpty = false := by
    cases hr : renderNat n with
    | nil => exact absurd hr (renderNat_ne_nil n)
    | cons x xs => rfl
  rw [parseBytes]
  simp only [data_mk, hmap, hnum, hrest, hunit]
  rw [if_pos]
  · rw [hlookup, jsParseFloat_renderNat, Option.map_some', floor_natCast]
    rfl
  · rw [h1, hune]
    simp only [Bool.not_false, Bool.true_and]
    exact hual


/-! ### Claim theorems -/

/-- C1: FIL/attoFIL conversion is exact at 18 decimals: the three quoted
conversions hold, and for every integer attoFIL count `n` the rendered FIL
string is `renderScaled n 18`, the 36-place `ROUND_DOWN` division is exact,
and the rendered string parses back to exactly `n / 10 ^ 18` (no precision
loss). -/
theorem C1_denomination_conversion_exact :
    filToAttoFil ("1") = some ("1000000000000000000") ∧
    attoFilToFil ("500000000000000000") = some ("0.5") ∧
    attoFilToFil ("1") = some ("0.000000000000000001") ∧
    ∀ n : Nat,
      attoFilToFil (String.mk (renderNat n)) = some (String.mk (renderScaled n 18)) ∧
      bnDiv ((n : ℚ)) (10 ^ 18) = (n : ℚ) / 10 ^ 18 ∧
      parseDecimal (renderScaled n 18) = some ((n : ℚ) / 10 ^ 18) := by
  refine ⟨by with_unfolding_all rfl, by with_unfolding_all rfl,
    by with_unfolding_all rfl, fun n => ⟨?_, bnDiv_nat_exact n, parseDecimal_renderScaled n 18⟩⟩
  rw [attoFilToFil, data_mk, parseDecimal_renderNat, Option.map_some', bnDiv_nat_exact,
    bnToFixed_nat_div]

/-- C2 (counterexample): 128 is a power of two, yet
`calculatePaddedPieceSize 128 = 256 ≠ 128`, so the claimed equality at
powers of two fails below the 256-byte minimum. -/
theorem C2_counterexample :
    (∃ j, (128 : Nat) = 2 ^ j) ∧ calculatePaddedPieceSize 128 = 256 ∧
      (calculatePaddedPieceSize 128 : Nat) ≠ 128 :=
  ⟨⟨7, rfl⟩, by decide, by decide⟩

/-- C2 (amended): `calculatePaddedPieceSize n` is always a power of two,
at least `n` and at least 256; for `n < 256` it is exactly 256 (so the
power-of-two equality and the `< 2n` bound of the claim hold only from 256
up); for `n ≥ 256` it equals `n` when `n` is a power of two and is below
`2n` always; the quoted values 0 ↦ 256, 256 ↦ 256, 257 ↦ 512 hold, and the
arbitrary-precision computation handles 64 GiB exactly. -/
theorem C2_padded_piece_size_amended :
    (∀ n : Nat,
      (∃ j, calculatePaddedPieceSize n = 2 ^ j) ∧
      n ≤ calculatePaddedPieceSize n ∧
      256 ≤ calculatePaddedPieceSize n ∧
      (n < 256 → calculatePaddedPieceSize n = 256) ∧
      (256 ≤ n → (∃ j, n = 2 ^ j) → calculatePaddedPieceSize n = n) ∧
      (256 ≤ n → calculatePaddedPieceSize n < 2 * n)) ∧
    calculatePaddedPieceSize 0 = 256 ∧
    calculatePaddedPieceSize 256 = 256 ∧
    calculatePaddedPieceSize 257 = 512 ∧
    calculatePaddedPieceSize (64 * 1024 ^ 3) = 64 * 1024 ^ 3 :=
  ⟨calculatePaddedPieceSize_spec, by decide, by decide, by decide, by decide⟩

/-- C2 (witness): the amended theorem applied at 512 (a power of two at or
above 256) gives `calculatePaddedPieceSize 512 = 512`. -/
theorem C2_witness : calculatePaddedPieceSize 512 = 512 :=
  (C2_padded_piece_size_amended.1 512).2.2.2.2.1 (by norm_num) ⟨9, rfl⟩

/-- C5 (counterexample): a string of `b` followed by 58 `0` characters is
accepted by `validateCid` although `0` is not in the base32 alphabet (the
source's own `CID_V1_PATTERN` rejects it), so acceptance is not equivalent
to the base32 well-formedness the claim states. -/
theorem C5_counterexample :
    validateCid (String.mk ('b' :: List.replicate 58 '0')) = true ∧
    cidV1Pattern ('b' :: List.replicate 58 '0') = false := by
  exact ⟨by decide, by decide⟩

/-- C5 (amended): the three quoted evaluations hold; `Qm`-prefixed strings
are accepted exactly by the v0 pattern (`Qm` + 44 base58 characters), but a
`b`-prefixed string is accepted exactly when its total length is at least
59 — no base32 alphabet check is performed on version-1 CIDs. -/
theorem C5_validateCid_amended :
    validateCid ("QmYwAPJzv5CZsnA625s3Xf2nemtYgPpHdWEz79ojWnPbdG") = true ∧
    validateCid ("bafybeigdyrzt5sfp7udm7hu76uh7y26nf3efuylqabf3oclgtqy55fbzdi") = true ∧
    validateCid ("invalid") = false ∧
    (∀ (s : String) (rest : List Char), s.data = 'Q' :: 'm' :: rest →
      (validateCid s = true ↔ cidV0Pattern s.data = true)) ∧
    (∀ (s : String) (rest : List Char), s.data = 'b' :: rest →
      (validateCid s = true ↔ 59 ≤ s.data.length)) := by
  refine ⟨by decide, by decide, by decide, ?_, ?_⟩
  · intro s rest hs
    rw [validateCid, hs]
    simp [List.isPrefixOf]
  · intro s rest hs
    rw [validateCid, hs]
    simp [List.isPrefixOf]

/-- C5 (witness): the amended theorem applied to `b` followed by 60 `a`
characters, a 61-character `b`-prefixed string, gives acceptance. -/
theorem C5_witness :
    validateCid (String.mk ('b' :: List.replicate 60 'a')) = true :=
  ((C5_validateCid_amended.2.2.2.2 (String.mk ('b' :: List.replicate 60 'a'))
    (List.replicate 60 'a') rfl).mpr (by decide))

/-- C6: an HTTP 200 response whose body carries a populated error field
makes `call` fail with a message containing the server's message (never a
success), and axios transport failures are surfaced through the same
`Except.error` channel. -/
theorem C6_rpc_error_surfacing :
    (callOutcome (T := Unit)
        (HttpOutcome.success { result := none, rpcError := some ⟨1, ("actor not found")⟩ }) =
        Except.error ("Lotus RPC Error: actor not found") ∧
      List.IsInfix (("actor not found").data) (("Lotus RPC Error: actor not found").data)) ∧
    (∀ (dat : LotusResponseData Unit) (e : RpcError), dat.rpcError = some e →
      ∃ msg, callOutcome (HttpOutcome.success dat) = Except.error msg ∧
        List.IsInfix e.message.data msg.data) ∧
    (∀ (rd : Option (LotusResponseData Unit)) (cmsg : String),
      ∃ msg, callOutcome (HttpOutcome.axiosFailure rd cmsg) = Except.error msg) := by
  refine ⟨⟨by rfl, ⟨("Lotus RPC Error: ").data, [], by decide⟩⟩, ?_, ?_⟩
  · intro dat e he
    refine ⟨String.mk ((("Lotus RPC Error: ").data) ++ e.message.data), ?_, ?_⟩
    · rw [callOutcome, he]
    · exact ⟨("Lotus RPC Error: ").data, [], by simp [data_mk]⟩
  · intro rd cmsg
    cases rd with
    | none => exact ⟨_, rfl⟩
    | some dat =>
      cases he : dat.rpcError with
      | none =>
        refine ⟨String.mk ((("Lotus connection error: ").data) ++ cmsg.data), ?_⟩
        rw [callOutcome, he]
      | some e =>
        refine ⟨String.mk ((("Lotus RPC Error: ").data) ++ e.message.data), ?_⟩
        rw [callOutcome, he]

/-- C6 (witness): the general part of the theorem applied to the quoted
response body. -/
theorem C6_witness :
    ∃ msg, callOutcome (T := Unit)
        (HttpOutcome.success { result := none, rpcError := some ⟨1, ("actor not found")⟩ }) =
        Except.error msg ∧
      List.IsInfix (("actor not found").data) msg.data :=
  C6_rpc_error_surfacing.2.1 { result := none, rpcError := some ⟨1, ("actor not found")⟩ }
    ⟨1, ("actor not found")⟩ rfl

/-- C7: for any sequence of call outcomes on one client instance (failures
included), the ids handed out are exactly 1, 2, 3, …: the k-th call gets id
k, and no id is ever reused. -/
theorem C7_request_ids :
    ∀ (T : Type) (os : List (HttpOutcome T)),
      runCallIds 0 os = List.range' 1 os.length ∧
      (∀ k : Nat, k < os.length → (runCallIds 0 os).get? k = some (1 + k)) ∧
      (runCallIds 0 os).Nodup := by
  intro T os
  have hr := runCallIds_range T os 0
  refine ⟨hr, ?_, ?_⟩
  · intro k hk
    rw [hr, List.get?_eq_getElem?, show (0 + 1 : Nat) = 1 from rfl,
      List.getElem?_range' 1 1 hk]
    norm_num
  · rw [hr]
    exact List.nodup_range' _ _

/-- C7 (witness): the theorem applied to a two-call trace whose first call
fails; the second call still gets id 2. -/
theorem C7_witness :
    (runCallIds 0 [HttpOutcome.thrown (T := Unit) ("boom"),
      HttpOutcome.success { result := none, rpcError := none }]).get? 1 = some 2 :=
  (C7_request_ids Unit [HttpOutcome.thrown ("boom"),
    HttpOutcome.success { result := none, rpcError := none }]).2.1 1 (by decide)


lemma truncQ_nonpos {q : ℚ} (h : q ≤ 0) : truncQ q ≤ 0 := by
  have hnum : q.num ≤ 0 := Rat.num_nonpos.mpr h
  rw [truncQ]
  cases hn : q.num with
  | ofNat n =>
    rw [hn, Int.ofNat_eq_natCast] at hnum
    have hn0 : n = 0 := by omega
    subst hn0
    show Int.tdiv 0 q.den ≤ 0
    simp [Int.tdiv]
  | negSucc m =>
    show Int.tdiv (Int.negSucc m) ((q.den : Nat) : Int) ≤ 0
    simp only [Int.tdiv]
    have h0 : 0 ≤ Int.ofNat (m.succ / q.den) := Int.ofNat_nonneg _
    omega

/-- C3 (counterexample): the five-character string `f4abc` is accepted by
`validateAddress` (only `length > 3` is checked for protocol 4), yet it does
not match the delegated-address pattern of namespace digits, an `f`
separator and a base32 payload. -/
theorem C3_counterexample :
    validateAddress ("f4abc") = true ∧
    delegatedAddressPattern (("f4abc").data) = false := by
  exact ⟨by decide, by decide⟩

/-- C3 (amended): for a string whose first character is `f` or `t` and whose
second character is a digit, `validateAddress` is the exact pattern test for
protocols 0–3, but for protocol 4 (Delegated) it tests only that the string
is longer than 3 characters; no delegated pattern check is performed. -/
theorem C3_validateAddress_amended :
    ∀ (s : String) (p d : Char),
      s.data.get? 0 = some p → (p = 'f' ∨ p = 't') →
      s.data.get? 1 = some d → isDigitChar d = true →
      (validateAddress s = true ↔
        ((digitVal d = 0 ∧ idAddressPattern s.data = true) ∨
         (digitVal d = 1 ∧ secp256k1AddressPattern s.data = true) ∨
         (digitVal d = 2 ∧ actorAddressPattern s.data = true) ∨
         (digitVal d = 3 ∧ blsAddressPattern s.data = true) ∨
         (digitVal d = 4 ∧ 3 < s.data.length))) := by
  intro s p d h0 hp h1 hd
  obtain ⟨rest, hcs⟩ : ∃ rest, s.data = p :: d :: rest := by
    cases hc : s.data with
    | nil => rw [hc] at h0; simp at h0
    | cons a tail =>
      cases ht : tail with
      | nil =>
        rw [hc, ht] at h1
        simp [List.get?] at h1
      | cons b tail2 =>
        rw [hc] at h0
        rw [hc, ht] at h1
        simp [List.get?] at h0 h1
        refine ⟨tail2, ?_⟩
        rw [h0, h1]
  have hv9 : digitVal d ≤ 9 := by
    rw [isDigitChar_iff] at hd
    rw [digitVal]
    omega
  rw [validateAddress, hcs]
  rcases hp with rfl | rfl <;>
  · simp only [List.isEmpty_cons, Bool.false_eq_true, if_false, List.isPrefixOf,
      List.get?, List.length_cons, hd, if_true]
    norm_num
    set v := digitVal d with hv
    interval_cases v <;> simp [hcs]


/-- C3 (witness): the amended theorem applied to the ID address `f0123`
(protocol 0, pattern satisfied) yields acceptance. -/
theorem C3_witness : validateAddress ("f0123") = true :=
  (C3_validateAddress_amended ("f0123") 'f' '0' rfl (Or.inl rfl) rfl rfl).mpr
    (Or.inl ⟨by decide, by decide⟩)

/-- C4: for every well-formed `0x` + 40-hex-character Ethereum address, the
embedding emits exactly the network prefix, the literal `410f`, and the 40
lower-cased hex characters, and extracting back yields the lower-cased form
of the original address. -/
theorem C4_eth_roundtrip :
    ∀ s : String, ethAddressPattern s.data = true →
      ethAddressToFilecoin s false =
        some (String.mk ('f' :: '4' :: '1' :: '0' :: 'f' ::
          ((s.data.map toLowerAscii).drop 2))) ∧
      (ethAddressToFilecoin s false).bind filecoinToEthAddress =
        some (String.mk (s.data.map toLowerAscii)) := by
  intro s hpat
  have hpat' := hpat
  obtain ⟨c1, c2, rest, hcs⟩ : ∃ c1 c2 rest, s.data = c1 :: c2 :: rest := by
    cases hc : s.data with
    | nil => rw [hc] at hpat; exact absurd hpat (by simp [ethAddressPattern])
    | cons a tail =>
      cases ht : tail with
      | nil =>
        rw [hc, ht] at hpat
        exact absurd hpat (by simp [ethAddressPattern])
      | cons b tail2 => exact ⟨a, b, tail2, rfl⟩
  rw [hcs] at hpat
  simp only [ethAddressPattern, Bool.and_eq_true, beq_iff_eq, decide_eq_true_eq,
    List.all_eq_true] at hpat
  obtain ⟨⟨⟨h0, hx⟩, hlen⟩, hhex⟩ := hpat
  subst h0
  subst hx
  have hlow0 : toLowerAscii ('0') = '0' := rfl
  have hlowx : toLowerAscii ('x') = 'x' := rfl
  have hmap : s.data.map toLowerAscii = '0' :: 'x' :: rest.map toLowerAscii := by
    rw [hcs, List.map_cons, List.map_cons, hlow0, hlowx]
  have hemb : ethAddressToFilecoin s false =
      some (String.mk ('f' :: '4' :: '1' :: '0' :: 'f' ::
        ((s.data.map toLowerAscii).drop 2))) := by
    rw [ethAddressToFilecoin, if_pos hpat']
    rfl
  have hdrop : (s.data.map toLowerAscii).drop 2 = rest.map toLowerAscii := by
    rw [hmap]
    rfl
  have hall : (rest.map toLowerAscii).all isHexChar = true := by
    rw [List.all_eq_true]
    intro c hc
    obtain ⟨c0, hc0, rfl⟩ := List.mem_map.mp hc
    exact (isHexChar_toLowerAscii (hhex c0 hc0)).1
  have hlen2 : (rest.map toLowerAscii).length = 40 := by rw [List.length_map, hlen]
  have hlowf : toLowerAscii ('f') = 'f' := rfl
  have hpat4 : f4EamPattern ('f' :: '4' :: '1' :: '0' :: 'f' ::
      (rest.map toLowerAscii)) = true := by
    simp [f4EamPattern, hlen2, hall, hlowf]
  refine ⟨hemb, ?_⟩
  rw [hemb, Option.some_bind, hdrop, filecoinToEthAddress, data_mk, if_pos hpat4]
  rw [hmap]
  rfl

/-- C4 (witness): the round-trip theorem applied to the wrapped-FIL contract
address used in the repository constants. -/
theorem C4_witness :
    (ethAddressToFilecoin ("0x60E1773636CF5E4A227d9AC24F20fEca034ee25A") false).bind
        filecoinToEthAddress =
      some (String.mk ((("0x60E1773636CF5E4A227d9AC24F20fEca034ee25A").data).map
        toLowerAscii)) :=
  (C4_eth_roundtrip ("0x60E1773636CF5E4A227d9AC24F20fEca034ee25A") (by decide)).2

/-- C8 (counterexample): `filToAttoFil` and `parseFilInput` do not reject
the negative amount `-1`: both return the negative attoFIL string. -/
theorem C8_counterexample :
    filToAttoFil ("-1") = some ("-1000000000000000000") ∧
    parseFilInput ("-1") = some ("-1000000000000000000") := by
  exact ⟨by with_unfolding_all rfl, by with_unfolding_all rfl⟩

/-- C8 (amended): `isValidFilAmount` does return false on every negative
amount, but `parseFilInput` and the FIL-to-attoFIL conversion do not fail on
negative input: the conversion succeeds and produces the truncated
(non-positive) attoFIL value. -/
theorem C8_negative_amounts_amended :
    ∀ (s : String) (q : ℚ), parseDecimal s.data = some q → q < 0 →
      isValidFilAmount s = false ∧
      filToAttoFil s = some (String.mk (bnToFixed0 (q * 10 ^ 18))) ∧
      truncQ (q * 10 ^ 18) ≤ 0 := by
  intro s q hparse hq
  refine ⟨?_, ?_, ?_⟩
  · rw [isValidFilAmount, hparse]
    simp [not_le.mpr hq]
  · rw [filToAttoFil, hparse, Option.map_some']
  · refine truncQ_nonpos ?_
    have h18 : (0 : ℚ) < 10 ^ 18 := by positivity
    nlinarith

/-- C8 (witness): the amended theorem applied at input `-1`. -/
theorem C8_witness : isValidFilAmount ("-1") = false :=
  (C8_negative_amounts_amended ("-1") (-1) (by with_unfolding_all rfl) (by norm_num)).1

/-- C9 (counterexample): `formatBytes 1535` is `1.50 KiB`: the second
decimal is rounded up, while truncation at 2 decimals of
`1535 / 1024 = 1.4990…` (whose truncated scaled value is 149) would give
`1.49 KiB`. -/
theorem C9_counterexample :
    formatBytes 1535 = ("1.50 KiB") ∧
    truncQ ((1535 : ℚ) / 1024 * 100) = 149 ∧
    ("1.50 KiB") ≠ ("1.49 KiB") := by
  exact ⟨by with_unfolding_all rfl, by with_unfolding_all rfl, by decide⟩

/-- C9 (amended): `formatBytes` steps through 1024-based units and prints
the value with `toFixed(2)` rounding (nearest, half up) — not truncation —
and `parseBytes` accepts every 1024-based and 1000-based suffix of its
table; both are deterministic, with arithmetic exact for counts below
`2 ^ 53`. -/
theorem C9_bytes_amended :
    (∀ n k : Nat, n < 2 ^ 53 → k ≤ 6 → (1024 ^ k ≤ n ∨ k = 0) →
      (n < 1024 ^ (k + 1) ∨ k = 6) →
      formatBytes n =
        String.mk (toFixed2 ((n : ℚ) / 1024 ^ k) ++ ' ' :: fbUnits.getD k [])) ∧
    (∀ (n : Nat) (u : List Char) (m : Nat), n < 2 ^ 53 → (u, m) ∈ byteUnits →
      parseBytes (String.mk (renderNat n ++ ' ' :: u)) = some ((n : Int) * (m : Int))) :=
  ⟨fun n k _ hk hlow hhigh => formatBytes_eq n k hk hlow hhigh,
   fun n u m _ hmem => parseBytes_suffix n u m hmem⟩

/-- C9 (witness): the amended theorem at 1535 bytes (unit index 1) and at
`5 kib`. -/
theorem C9_witness :
    formatBytes 1535 =
      String.mk (toFixed2 ((1535 : ℚ) / 1024 ^ 1) ++ ' ' :: fbUnits.getD 1 []) ∧
    parseBytes (String.mk (renderNat 5 ++ ' ' :: ('k' :: 'i' :: 'b' :: []))) =
      some 5120 := by
  refine ⟨C9_bytes_amended.1 1535 1 (by norm_num) (by norm_num)
    (Or.inl (by norm_num)) (Or.inl (by norm_num)), ?_⟩
  rw [C9_bytes_amended.2 5 ('k' :: 'i' :: 'b' :: []) 1024 (by norm_num) (by decide)]
  decide

/-- C10 (counterexample): at `id = 10 ^ 21` the JavaScript number
interpolation renders exponential notation, so the code produces `f01e+21`
(see `createIdAddressPow21`); on that address `extractIdFromAddress` is
`null` and `validateAddress` is `false`, refuting the round trip claimed
for every non-negative integer id. -/
theorem C10_counterexample :
    extractIdFromAddress createIdAddressPow21 = none ∧
    validateAddress createIdAddressPow21 = false := by
  exact ⟨by decide, by decide⟩

/-- C10 (amended): for every id below `2 ^ 53` — the range in which a
JavaScript number interpolates as its exact decimal digits and `parseInt`
parses them back exactly — extracting the id from the created address is the
identity, and the created address is accepted by `validateAddress`,
classified as protocol 0 (ID), and therefore not robust.  From `2 ^ 53` the
double rendering and `parseInt` lose exactness, and from `10 ^ 21` the
rendered address fails the ID pattern altogether. -/
theorem C10_id_address_roundtrip_amended :
    ∀ (id : Nat) (testnet : Bool), id < 2 ^ 53 →
      extractIdFromAddress (createIdAddress id testnet) = some id ∧
      validateAddress (createIdAddress id testnet) = true ∧
      getAddressType (createIdAddress id testnet) = some 0 ∧
      isRobustAddress (createIdAddress id testnet) = false := by
  intro id testnet _
  have hpat : ∀ p : Char, (p == 'f' || p == 't') = true →
      idAddressPattern (p :: '0' :: renderNat id) = true := by
    intro p hpft
    simp only [idAddressPattern, Bool.and_eq_true]
    refine ⟨⟨⟨hpft, rfl⟩, ?_⟩, List.all_eq_true.mpr (renderNat_all_digits id)⟩
    simp only [Bool.not_eq_true']
    cases hr : renderNat id with
    | nil => exact absurd hr (renderNat_ne_nil id)
    | cons x xs => rfl
  cases testnet with
  | false =>
    have hp : idAddressPattern ('f' :: '0' :: renderNat id) = true := hpat 'f' rfl
    refine ⟨?_, ?_, rfl, rfl⟩
    · show (if idAddressPattern ('f' :: '0' :: renderNat id) = true then
          some (parseNatL ((('f' :: '0' :: renderNat id) : List Char).drop 2)) else none) =
        some id
      rw [if_pos hp]
      show some (parseNatL (renderNat id)) = some id
      rw [parseNatL_renderNat]
    · show idAddressPattern ('f' :: '0' :: renderNat id) = true
      exact hp
  | true =>
    have hp : idAddressPattern ('t' :: '0' :: renderNat id) = true := hpat 't' rfl
    refine ⟨?_, ?_, rfl, rfl⟩
    · show (if idAddressPattern ('t' :: '0' :: renderNat id) = true then
          some (parseNatL ((('t' :: '0' :: renderNat id) : List Char).drop 2)) else none) =
        some id
      rw [if_pos hp]
      show some (parseNatL (renderNat id)) = some id
      rw [parseNatL_renderNat]
    · show idAddressPattern ('t' :: '0' :: renderNat id) = true
      exact hp

/-- C10 (witness): the amended theorem applied at id 1234 on mainnet. -/
theorem C10_witness :
    extractIdFromAddress (createIdAddress 1234 false) = some 1234 :=
  (C10_id_address_roundtrip_amended 1234 false (by norm_num)).1

end FilecoinSpec
